import Mathlib

/-!
# Verification of the Ragora Node SDK streaming core (`src/client.ts`, `chatStream`)

A shallow embedding of the streaming response parser of the Ragora client:
the UTF-8 byte-stream decoder, the SSE line framer, the event interpreter
(`parseEvent`), and the untyped-record coercions (`toSearchResult`,
`mapSearchResults`, `extractChatSources`), together with theorems about the
spec's claims on them.

JavaScript values reachable from `JSON.parse` and the coercion helpers are
modelled by the inductive `JSValue`.  JavaScript numbers are modelled exactly
as decimals (`mantissa × 10^exponent`) together with the non-finite values
`NaN`/`±Infinity`; IEEE-754 rounding and overflow are not modelled (no claim
depends on them), and the decimal rendering of very large or small numbers by
`String(...)` is approximated.
-/

namespace Ragora

/-! ## JavaScript string primitives

`trimEnd` / `trimStart` / `trim` remove the characters of the ECMAScript
`WhiteSpace` and `LineTerminator` productions.  Lines are handled as `List Char`
(one entry per code point). -/

/-- The ECMAScript whitespace set used by `trim`/`trimStart`/`trimEnd`:
`WhiteSpace` (TAB, VT, FF, SP, NBSP, ZWNBSP and Unicode `Zs`) plus
`LineTerminator` (LF, CR, LS, PS). -/
def jsWs (c : Char) : Bool :=
  c = ' ' || c = '\t' || c = '\n' || c = '\r' ||
  c.toNat = 0xb || c.toNat = 0xc || c.toNat = 0xa0 || c.toNat = 0xfeff ||
  c.toNat = 0x1680 || (0x2000 ≤ c.toNat && c.toNat ≤ 0x200a) ||
  c.toNat = 0x2028 || c.toNat = 0x2029 ||
  c.toNat = 0x202f || c.toNat = 0x205f || c.toNat = 0x3000

/-- JavaScript `String.prototype.trimStart`. -/
def trimStartList (cs : List Char) : List Char := cs.dropWhile jsWs

/-- JavaScript `String.prototype.trimEnd`. -/
def trimEndList (cs : List Char) : List Char := (cs.reverse.dropWhile jsWs).reverse

/-- JavaScript `String.prototype.trim`. -/
def trimList (cs : List Char) : List Char := trimStartList (trimEndList cs)

/-! ## JavaScript values

The values that can flow out of `JSON.parse` and through the client's
runtime type-guards (`isRecord`, `Array.isArray`, `typeof` checks). -/

/-- A JavaScript number: `NaN`, `±Infinity`, or a finite value.  Finite values
are modelled exactly as `mantissa × 10^exponent` (JSON and `Number(string)`
literals are decimal, so they are exactly representable; IEEE-754 rounding is
not modelled).  All constructions go through `mkDec`, which keeps the
representation canonical (`mantissa` not divisible by 10, and `0` is
`finite 0 0`), so structural equality is value equality.  JavaScript's `-0`
is identified with `0`. -/
inductive JSNum where
  | nan
  | inf
  | neginf
  | finite (mantissa : Int) (exponent : Int)
deriving DecidableEq, Repr

/-- A JavaScript value (the JSON-reachable fragment plus `undefined`). -/
inductive JSValue where
  | undefined
  | null
  | bool (b : Bool)
  | num (n : JSNum)
  | str (s : String)
  | arr (elems : List JSValue)
  | obj (fields : List (String × JSValue))
deriving Repr

/-- Property access `o[k]` on a plain object: the value stored under `k`
(`JSON.parse` keeps the last of duplicate keys), `undefined` if absent. -/
def getField (fields : List (String × JSValue)) (k : String) : JSValue :=
  match fields.reverse.find? (fun p => p.1 == k) with
  | some p => p.2
  | none => .undefined

/-- `RagoraClient.isRecord`: `typeof value === 'object' && value !== null &&
!Array.isArray(value)`. -/
def isRecord : JSValue → Bool
  | .obj _ => true
  | _ => false

/-- Whether a value is `null` or `undefined` (the values skipped by `??`). -/
def isNullish : JSValue → Bool
  | .undefined => true
  | .null => true
  | _ => false

/-- The nullish-coalescing operator `a ?? b`. -/
def nullishCoalesce (a b : JSValue) : JSValue :=
  if isNullish a then b else a

/-! ## JavaScript `String(...)` coercion -/

/-- Decimal rendering of a finite JavaScript number `m × 10^e`.  Integers are
rendered exactly as JavaScript does; non-integral values are printed with their
terminating decimal expansion (JavaScript's shortest-round-trip double
formatting agrees on all short decimals; very large/small magnitudes, which
JavaScript prints in e-notation, are approximated by the plain expansion). -/
def decToString (m e : Int) : String :=
  let sign := if m < 0 then "-" else ""
  let n := m.natAbs
  if 0 ≤ e then sign ++ toString (n * 10 ^ e.toNat)
  else
    let k := (-e).toNat
    let digits := toString n
    let digits := String.mk (List.replicate (k + 1 - digits.length) '0') ++ digits
    sign ++ String.mk (digits.data.take (digits.length - k)) ++ "." ++
      String.mk (digits.data.drop (digits.length - k))

/-- Rendering of a JavaScript number by `String(...)`. -/
def numToString : JSNum → String
  | .nan => "NaN"
  | .inf => "Infinity"
  | .neginf => "-Infinity"
  | .finite m e => decToString m e

mutual

/-- JavaScript `String(v)` on the modelled values: identity on strings,
`"null"`/`"undefined"`/`"true"`/`"false"`, number rendering,
`Array.prototype.join(",")` for arrays, and `"[object Object]"` for plain
objects. -/
def jsToString : JSValue → String
  | .undefined => "undefined"
  | .null => "null"
  | .bool true => "true"
  | .bool false => "false"
  | .num n => numToString n
  | .str s => s
  | .arr es => arrayJoin es
  | .obj _ => "[object Object]"

/-- `Array.prototype.join(",")` over the elements' `String(...)` images
(`null`/`undefined` entries are rendered as the empty string, as `join`
does). -/
def arrayJoin : List JSValue → String
  | [] => ""
  | [.undefined] => ""
  | [.null] => ""
  | [e] => jsToString e
  | .undefined :: es => "," ++ arrayJoin es
  | .null :: es => "," ++ arrayJoin es
  | e :: es => jsToString e ++ "," ++ arrayJoin es

end

/-! ## JavaScript `Number(...)` coercion -/

/-- The numeric value of a decimal digit, if `c` is one. -/
def digitVal (c : Char) : Option Nat :=
  if '0' ≤ c ∧ c ≤ '9' then some (c.toNat - 48) else none

/-- Split a leading run of decimal digits off a character list. -/
def takeDigits : List Char → List Nat × List Char
  | [] => ([], [])
  | c :: cs =>
    match digitVal c with
    | some d =>
      let r := takeDigits cs
      (d :: r.1, r.2)
    | none => ([], c :: cs)

/-- The natural number denoted by a digit list (most significant first). -/
def digitsToNat (ds : List Nat) : Nat := ds.foldl (fun a d => a * 10 + d) 0

/-- Drop trailing zero digits, returning the stripped list and how many were
dropped. -/
def stripZeros (ds : List Nat) : List Nat × Nat :=
  let r := (ds.reverse.dropWhile (fun d => d = 0)).reverse
  (r, ds.length - r.length)

/-- The canonical `JSNum` denoted by an optional sign, a digit list and a
power-of-ten exponent. -/
def mkDec (neg : Bool) (ds : List Nat) (exp : Int) : JSNum :=
  let s := stripZeros ds
  if s.1 = [] then .finite 0 0
  else
    let n : Int := (digitsToNat s.1 : Int)
    .finite (if neg then -n else n) (exp + s.2)

/-- Strip factors of ten from a positive `Nat` (fuel-driven; `fuel := n`
suffices). -/
def stripTensAux : Nat → Nat → Nat × Nat
  | 0, n => (n, 0)
  | fuel + 1, n =>
    if n % 10 = 0 ∧ n ≠ 0 then
      let r := stripTensAux fuel (n / 10)
      (r.1, r.2 + 1)
    else (n, 0)

/-- The canonical `JSNum` denoted by a `Nat`. -/
def mkDecOfNat (n : Nat) : JSNum :=
  if n = 0 then .finite 0 0
  else
    let r := stripTensAux n n
    .finite r.1 r.2

/-- The value of a digit in radix `r`, if any. -/
def radixDigitVal (r : Nat) (c : Char) : Option Nat :=
  let v :=
    if '0' ≤ c ∧ c ≤ '9' then some (c.toNat - 48)
    else if 'a' ≤ c ∧ c ≤ 'f' then some (c.toNat - 87)
    else if 'A' ≤ c ∧ c ≤ 'F' then some (c.toNat - 55)
    else none
  match v with
  | some v => if v < r then some v else none
  | none => none

/-- Parse a non-empty all-digit string in radix `r`. -/
def parseRadixNat (r : Nat) (cs : List Char) : Option Nat :=
  match cs with
  | [] => none
  | _ =>
    cs.foldl (fun acc c =>
      match acc, radixDigitVal r c with
      | some a, some d => some (a * r + d)
      | _, _ => none) (some 0)

/-- The exponent part of a decimal literal: `[eE] [+-]? digits`, returning the
signed exponent and the rest.  `none` when `cs` does not start with `e`/`E`
(an absent exponent, exponent `0`); an ill-formed exponent yields junk that the
caller rejects through the leftover characters. -/
def parseExponent (cs : List Char) : Option (Int × List Char) :=
  match cs with
  | c :: rest =>
    if c = 'e' ∨ c = 'E' then
      let (neg, rest2) :=
        match rest with
        | '-' :: r => (true, r)
        | '+' :: r => (false, r)
        | r => (false, r)
      match takeDigits rest2 with
      | ([], _) => none
      | (ds, rest3) =>
        some (if neg then -(digitsToNat ds : Int) else (digitsToNat ds : Int), rest3)
    else none
  | [] => none

/-- A JavaScript `StrDecimalLiteral` (as consumed by `Number(string)` after
trimming): optional sign, then `Infinity`, or digits with optional fraction
and exponent (`"5."`, `".5"`, `"012"` are all legal here, unlike in JSON).
Must consume the whole input. -/
def parseStrDecimal (cs : List Char) : JSNum :=
  let (neg, cs1) :=
    match cs with
    | '-' :: r => (true, r)
    | '+' :: r => (false, r)
    | r => (false, r)
  if cs1 = "Infinity".data then (if neg then .neginf else .inf)
  else
    let (intDs, cs2) := takeDigits cs1
    let (fracDs, cs3) :=
      match cs2 with
      | '.' :: r => takeDigits r
      | r => ([], r)
    if intDs = [] ∧ fracDs = [] then .nan
    else
      match cs3 with
      | [] => mkDec neg (intDs ++ fracDs) (-(fracDs.length : Int))
      | rest =>
        match parseExponent rest with
        | some (e, []) => mkDec neg (intDs ++ fracDs) (e - fracDs.length)
        | _ => .nan

/-- JavaScript `Number(string)`: trim ECMAScript whitespace; empty → `0`;
a `0x`/`0o`/`0b` radix literal (no sign allowed); otherwise a signed decimal
literal or `Infinity`; anything else → `NaN`. -/
def jsStringToNumber (s : String) : JSNum :=
  let cs := trimList s.data
  match cs with
  | [] => .finite 0 0
  | '0' :: x :: rest =>
    if x = 'x' ∨ x = 'X' then
      match parseRadixNat 16 rest with
      | some n => mkDecOfNat n
      | none => .nan
    else if x = 'o' ∨ x = 'O' then
      match parseRadixNat 8 rest with
      | some n => mkDecOfNat n
      | none => .nan
    else if x = 'b' ∨ x = 'B' then
      match parseRadixNat 2 rest with
      | some n => mkDecOfNat n
      | none => .nan
    else parseStrDecimal cs
  | _ => parseStrDecimal cs

/-- JavaScript `Number(v)` on the modelled values.  Arrays and plain objects
coerce through `ToPrimitive` (which, for them, is their `String(...)` image). -/
def toNumber : JSValue → JSNum
  | .undefined => .nan
  | .null => .finite 0 0
  | .bool true => .finite 1 0
  | .bool false => .finite 0 0
  | .num n => n
  | .str s => jsStringToNumber s
  | .arr es => jsStringToNumber (jsToString (.arr es))
  | .obj fs => jsStringToNumber (jsToString (.obj fs))

/-- `Number.isFinite` on a modelled JavaScript number. -/
def isFiniteNum : JSNum → Bool
  | .finite _ _ => true
  | _ => false

/-! ## `JSON.parse`

A strict RFC 8259 parser: `JSON.parse(s)` is modelled by `parseJson s`,
returning `none` exactly when `JSON.parse` throws.  The recursion is
structural on a fuel that the top level sets to the input length plus one,
which always suffices since every nesting level consumes at least one
character. -/

/-- JSON insignificant whitespace: space, tab, line feed, carriage return. -/
def jsonWs (c : Char) : Bool := c = ' ' || c = '\t' || c = '\n' || c = '\r'

/-- Skip JSON whitespace. -/
def skipWs (cs : List Char) : List Char := cs.dropWhile jsonWs

/-- The opening-brace character `U+007B`. -/
def braceL : Char := Char.ofNat 123

/-- The closing-brace character `U+007D`. -/
def braceR : Char := Char.ofNat 125

/-- The replacement character `U+FFFD` (stands in for the lone UTF-16
surrogates JavaScript strings can hold but Unicode-scalar strings cannot). -/
def replChar : Char := Char.ofNat 0xfffd

/-- Body of a JSON string, after the opening quote: plain characters,
short escapes, and `\uXXXX` (surrogate pairs combined; lone surrogates are
replaced by `U+FFFD`, see `replChar`).  Unescaped control characters are a
parse error. -/
def parseJStringBody : Nat → List Char → List Char → Option (String × List Char)
  | 0, _, _ => none
  | _ + 1, _, [] => none
  | fuel + 1, acc, c :: rest =>
    if c = '"' then some (String.mk acc.reverse, rest)
    else if c = '\\' then
      match rest with
      | [] => none
      | e :: rest2 =>
        if e = '"' then parseJStringBody fuel ('"' :: acc) rest2
        else if e = '\\' then parseJStringBody fuel ('\\' :: acc) rest2
        else if e = '/' then parseJStringBody fuel ('/' :: acc) rest2
        else if e = 'b' then parseJStringBody fuel ('\x08' :: acc) rest2
        else if e = 'f' then parseJStringBody fuel ('\x0c' :: acc) rest2
        else if e = 'n' then parseJStringBody fuel ('\n' :: acc) rest2
        else if e = 'r' then parseJStringBody fuel ('\r' :: acc) rest2
        else if e = 't' then parseJStringBody fuel ('\t' :: acc) rest2
        else if e = 'u' then
          match rest2 with
          | h1 :: h2 :: h3 :: h4 :: rest3 =>
            match radixDigitVal 16 h1, radixDigitVal 16 h2,
                radixDigitVal 16 h3, radixDigitVal 16 h4 with
            | some a, some b, some c2, some d =>
              let u := ((a * 16 + b) * 16 + c2) * 16 + d
              if 0xd800 ≤ u ∧ u ≤ 0xdbff then
                match rest3 with
                | '\\' :: 'u' :: g1 :: g2 :: g3 :: g4 :: rest4 =>
                  match radixDigitVal 16 g1, radixDigitVal 16 g2,
                      radixDigitVal 16 g3, radixDigitVal 16 g4 with
                  | some a2, some b2, some c3, some d2 =>
                    let l := ((a2 * 16 + b2) * 16 + c3) * 16 + d2
                    if 0xdc00 ≤ l ∧ l ≤ 0xdfff then
                      parseJStringBody fuel
                        (Char.ofNat (0x10000 + (u - 0xd800) * 0x400 + (l - 0xdc00)) :: acc)
                        rest4
                    else parseJStringBody fuel (replChar :: acc) rest3
                  | _, _, _, _ => parseJStringBody fuel (replChar :: acc) rest3
                | _ => parseJStringBody fuel (replChar :: acc) rest3
              else if 0xdc00 ≤ u ∧ u ≤ 0xdfff then
                parseJStringBody fuel (replChar :: acc) rest3
              else parseJStringBody fuel (Char.ofNat u :: acc) rest3
            | _, _, _, _ => none
          | _ => none
        else none
    else if c.toNat < 0x20 then none
    else parseJStringBody fuel (c :: acc) rest

/-- The tail of a JSON number: an optional exponent after the integer and
fraction digit lists. -/
def parseJNumTail (neg : Bool) (ints fracs : List Nat) (cs : List Char) :
    Option (JSValue × List Char) :=
  match cs with
  | c :: _ =>
    if c = 'e' ∨ c = 'E' then
      match parseExponent cs with
      | some (e, rest) => some (.num (mkDec neg (ints ++ fracs) (e - fracs.length)), rest)
      | none => none
    else some (.num (mkDec neg (ints ++ fracs) (-(fracs.length : Int))), cs)
  | [] => some (.num (mkDec neg (ints ++ fracs) (-(fracs.length : Int))), [])

/-- A JSON number literal: optional `-`, an integer part with no leading
zeros, an optional fraction, an optional exponent. -/
def parseJNumber (cs : List Char) : Option (JSValue × List Char) :=
  let p : Bool × List Char := match cs with
    | '-' :: r => (true, r)
    | r => (false, r)
  match takeDigits p.2 with
  | ([], _) => none
  | (d :: ds, cs2) =>
    if d = 0 ∧ ds ≠ [] then none
    else
      match cs2 with
      | '.' :: r =>
        match takeDigits r with
        | ([], _) => none
        | (fds, cs3) => parseJNumTail p.1 (d :: ds) fds cs3
      | _ => parseJNumTail p.1 (d :: ds) [] cs2

mutual

/-- A JSON value (leading whitespace allowed). -/
def parseJValue : Nat → List Char → Option (JSValue × List Char)
  | 0, _ => none
  | fuel + 1, cs =>
    match skipWs cs with
    | [] => none
    | c :: rest =>
      if c = 't' then
        match rest with
        | 'r' :: 'u' :: 'e' :: r => some (.bool true, r)
        | _ => none
      else if c = 'f' then
        match rest with
        | 'a' :: 'l' :: 's' :: 'e' :: r => some (.bool false, r)
        | _ => none
      else if c = 'n' then
        match rest with
        | 'u' :: 'l' :: 'l' :: r => some (.null, r)
        | _ => none
      else if c = '"' then
        match parseJStringBody (rest.length + 1) [] rest with
        | some (s, r) => some (.str s, r)
        | none => none
      else if c = '[' then parseJArray fuel rest
      else if c = braceL then parseJObject fuel rest
      else parseJNumber (c :: rest)

/-- A JSON array, after the opening bracket. -/
def parseJArray : Nat → List Char → Option (JSValue × List Char)
  | 0, _ => none
  | fuel + 1, cs =>
    match skipWs cs with
    | c :: r =>
      if c = ']' then some (.arr [], r)
      else parseJArrayItems fuel [] (c :: r)
    | [] => none

/-- The comma-separated items of a non-empty JSON array. -/
def parseJArrayItems : Nat → List JSValue → List Char → Option (JSValue × List Char)
  | 0, _, _ => none
  | fuel + 1, acc, cs =>
    match parseJValue fuel cs with
    | none => none
    | some (v, rest) =>
      match skipWs rest with
      | ',' :: r => parseJArrayItems fuel (v :: acc) r
      | c :: r =>
        if c = ']' then some (.arr (v :: acc).reverse, r) else none
      | [] => none

/-- A JSON object, after the opening brace. -/
def parseJObject : Nat → List Char → Option (JSValue × List Char)
  | 0, _ => none
  | fuel + 1, cs =>
    match skipWs cs with
    | c :: r =>
      if c = braceR then some (.obj [], r)
      else parseJObjectItems fuel [] (c :: r)
    | [] => none

/-- The comma-separated `"key": value` members of a non-empty JSON object. -/
def parseJObjectItems : Nat → List (String × JSValue) → List Char →
    Option (JSValue × List Char)
  | 0, _, _ => none
  | fuel + 1, acc, cs =>
    match skipWs cs with
    | '"' :: r =>
      match parseJStringBody (r.length + 1) [] r with
      | none => none
      | some (k, rest) =>
        match skipWs rest with
        | ':' :: r2 =>
          match parseJValue fuel r2 with
          | none => none
          | some (v, rest2) =>
            match skipWs rest2 with
            | ',' :: r3 => parseJObjectItems fuel ((k, v) :: acc) r3
            | c :: r3 =>
              if c = braceR then some (.obj ((k, v) :: acc).reverse, r3) else none
            | [] => none
        | _ => none
    | _ => none

end

/-- `JSON.parse`: parse one JSON value and require only whitespace after it;
`none` models a thrown `SyntaxError`. -/
def parseJson (s : String) : Option JSValue :=
  match parseJValue (s.data.length + 1) s.data with
  | some (v, rest) => if skipWs rest = [] then some v else none
  | none => none

/-! ## `SearchResult` coercion (`toSearchResult`, `mapSearchResults`,
`extractChatSources` of `RagoraClient`) -/

/-- The client's `SearchResult` shape. -/
structure SearchResult where
  id : String
  content : String
  score : JSNum
  metadata : List (String × JSValue)
  documentId : Option String
  collectionId : Option String
deriving Repr

/-- `RagoraClient.toSearchResult(raw)`:

```js
const parsedScore = typeof scoreRaw === 'number' ? scoreRaw : Number(scoreRaw ?? 0);
const metadata = isRecord(raw.metadata) ? raw.metadata : {};
return {
  id: String(raw.id ?? raw.chunk_id ?? ''),
  content: (typeof raw.text === 'string' ? raw.text : undefined) ??
           (typeof raw.content === 'string' ? raw.content : ''),
  score: Number.isFinite(parsedScore) ? parsedScore : 0,
  metadata,
  documentId: typeof raw.document_id === 'string' ? raw.document_id : undefined,
  collectionId: typeof raw.collection_id === 'string' ? raw.collection_id : undefined,
};
``` -/
def toSearchResult (raw : List (String × JSValue)) : SearchResult :=
  let scoreRaw := getField raw "score"
  let parsedScore :=
    match scoreRaw with
    | .num n => n
    | _ => toNumber (nullishCoalesce scoreRaw (.num (.finite 0 0)))
  let metadata :=
    match getField raw "metadata" with
    | .obj fs => fs
    | _ => []
  { id := jsToString (nullishCoalesce (getField raw "id")
      (nullishCoalesce (getField raw "chunk_id") (.str "")))
    content :=
      match getField raw "text" with
      | .str s => s
      | _ =>
        match getField raw "content" with
        | .str s => s
        | _ => ""
    score := if isFiniteNum parsedScore then parsedScore else .finite 0 0
    metadata := metadata
    documentId :=
      match getField raw "document_id" with
      | .str s => some s
      | _ => none
    collectionId :=
      match getField raw "collection_id" with
      | .str s => some s
      | _ => none }

/-- `RagoraClient.mapSearchResults(rawResults)`: empty unless an array; array
entries that are not records are skipped, records are coerced in order. -/
def mapSearchResults : JSValue → List SearchResult
  | .arr es =>
    es.filterMap (fun e =>
      match e with
      | .obj fs => some (toSearchResult fs)
      | _ => none)
  | _ => []

/-- `RagoraClient.extractChatSources(payload)`: prefer
`payload.ragora_stats.sources` when `ragora_stats` is a record whose
`sources` is an array, else fall back to top-level `payload.sources`. -/
def extractChatSources (payload : List (String × JSValue)) : List SearchResult :=
  match getField payload "ragora_stats" with
  | .obj statsFields =>
    match getField statsFields "sources" with
    | .arr es => mapSearchResults (.arr es)
    | _ => mapSearchResults (getField payload "sources")
  | _ => mapSearchResults (getField payload "sources")

/-! ## The event interpreter (`parseEvent` inside `chatStream`) -/

/-- The caller-visible stream chunk (`ChatStreamChunk`). -/
structure ChatStreamChunk where
  content : String
  finishReason : Option String
  sources : List SearchResult
deriving Repr

/-- The result of `parseEvent`: an optional chunk, and whether the `[DONE]`
sentinel was seen. -/
structure ParseEventResult where
  chunk : Option ChatStreamChunk
  done : Bool
deriving Repr

/-- `dataLines.join('\n')`. -/
def joinNl (lines : List String) : String := String.intercalate "\n" lines

/-- `choices[0]` of a parsed payload:
`Array.isArray(parsed.choices) ? parsed.choices : []`, then
`choices.length > 0 && isRecord(choices[0]) ? choices[0] : {}`. -/
def firstChoice (fields : List (String × JSValue)) : List (String × JSValue) :=
  match getField fields "choices" with
  | .arr (.obj fs :: _) => fs
  | _ => []

/-- `delta.content` of the first choice:
`isRecord(firstChoice.delta) ? firstChoice.delta : {}`, then
`typeof delta.content === 'string' ? delta.content : ''`. -/
def contentOf (fields : List (String × JSValue)) : String :=
  match getField (firstChoice fields) "delta" with
  | .obj delta =>
    match getField delta "content" with
    | .str s => s
    | _ => ""
  | _ => ""

/-- `finish_reason` of the first choice:
`typeof firstChoice.finish_reason === 'string' ? firstChoice.finish_reason : undefined`. -/
def finishReasonOf (fields : List (String × JSValue)) : Option String :=
  match getField (firstChoice fields) "finish_reason" with
  | .str s => some s
  | _ => none

/-- The `parseEvent` closure of `chatStream`: interpret one completed frame.
No data lines → nothing; payload `[DONE]` → signal termination; unparseable
or non-record JSON → nothing (the `try`/`catch` making parse errors
non-fatal); `ragora_metadata`/`ragora_complete` events → a sources-only chunk
when sources were extracted; any other event → a content/finish-reason chunk,
suppressed when content is empty, `finishReason` is falsy (absent or the
empty string, since `!finishReason` is JavaScript truthiness) and sources are
empty. -/
def parseEvent (currentEvent : String) (currentDataLines : List String) :
    ParseEventResult :=
  if currentDataLines = [] then ⟨none, false⟩
  else
    let dataStr := joinNl currentDataLines
    if dataStr = "[DONE]" then ⟨none, true⟩
    else
      match parseJson dataStr with
      | some (.obj fields) =>
        if currentEvent = "ragora_metadata" ∨ currentEvent = "ragora_complete" then
          let sources := extractChatSources fields
          if sources.isEmpty then ⟨none, false⟩
          else ⟨some ⟨"", none, sources⟩, false⟩
        else
          let content := contentOf fields
          let finishReason := finishReasonOf fields
          let sources := extractChatSources fields
          if content = "" ∧ (finishReason = none ∨ finishReason = some "") ∧
              sources.isEmpty then ⟨none, false⟩
          else ⟨some ⟨content, finishReason, sources⟩, false⟩
      | some _ => ⟨none, false⟩
      | none => ⟨none, false⟩

/-! ## The streaming `TextDecoder`

`new TextDecoder()` with default options (`utf-8`, non-fatal, BOM removed),
modelled byte-for-byte after the WHATWG UTF-8 decoder state machine, plus the
"BOM seen" handling: the first code point of the whole stream is dropped when
it is `U+FEFF`.  `decode(bytes, {stream: true})` is `decodeChunk`. -/

/-- The decoder state: the partially assembled code point, how many
continuation bytes are still `needed` and how many were `seen`, the
acceptance bounds for the next continuation byte, and whether the stream's
first code point has been produced (for BOM removal). -/
structure DecoderState where
  codepoint : Nat
  needed : Nat
  seen : Nat
  lower : Nat
  upper : Nat
  bomSeen : Bool
deriving DecidableEq, Repr

/-- The decoder's initial state. -/
def initDecoder : DecoderState := ⟨0, 0, 0, 0x80, 0xbf, false⟩

/-- Emit one decoded code point, removing a leading `U+FEFF` (the
`ignoreBOM: false` default). -/
def emitCp (s : DecoderState) (cp : Nat) : DecoderState × List Char :=
  if s.bomSeen then (s, [Char.ofNat cp])
  else
    let s' := { s with bomSeen := true }
    if cp = 0xfeff then (s', []) else (s', [Char.ofNat cp])

/-- Process one byte in the "no continuation needed" state: ASCII, a lead
byte (with the `E0`/`ED`/`F0`/`F4` boundary adjustments that exclude
overlong encodings and surrogates), or an invalid byte (replacement
character).  The WHATWG bit masks `& 0x1F`/`& 0xF`/`& 0x7` are written as
`% 32`/`% 16`/`% 8`, which are equal on `Nat`. -/
def decodeLeadByte (s : DecoderState) (b : Nat) : DecoderState × List Char :=
  if b ≤ 0x7f then emitCp s b
  else if 0xc2 ≤ b ∧ b ≤ 0xdf then
    ({ s with
        needed := 1, seen := 0, codepoint := b % 32,
        lower := 0x80, upper := 0xbf }, [])
  else if 0xe0 ≤ b ∧ b ≤ 0xef then
    ({ s with
        needed := 2, seen := 0, codepoint := b % 16,
        lower := (if b = 0xe0 then 0xa0 else 0x80),
        upper := (if b = 0xed then 0x9f else 0xbf) }, [])
  else if 0xf0 ≤ b ∧ b ≤ 0xf4 then
    ({ s with
        needed := 3, seen := 0, codepoint := b % 8,
        lower := (if b = 0xf0 then 0x90 else 0x80),
        upper := (if b = 0xf4 then 0x8f else 0xbf) }, [])
  else emitCp s 0xfffd

/-- Process one byte of the UTF-8 stream: a lead byte when no continuation is
pending, otherwise a continuation byte — which, when out of bounds, emits a
replacement character and is reprocessed as a lead byte.  The WHATWG
`(codepoint << 6) | (byte & 0x3F)` is written `codepoint * 64 + byte % 64`,
which is equal since the shifted value has zero low bits. -/
def decodeByte (s : DecoderState) (b : Nat) : DecoderState × List Char :=
  if s.needed = 0 then decodeLeadByte s b
  else if s.lower ≤ b ∧ b ≤ s.upper then
    let cp := s.codepoint * 64 + b % 64
    if s.seen + 1 = s.needed then
      emitCp { s with
                needed := 0, seen := 0, codepoint := 0,
                lower := 0x80, upper := 0xbf } cp
    else ({ s with codepoint := cp, seen := s.seen + 1 }, [])
  else
    let s' := { s with
                 needed := 0, seen := 0, codepoint := 0,
                 lower := 0x80, upper := 0xbf }
    let r1 := emitCp s' 0xfffd
    let r2 := decodeLeadByte r1.1 b
    (r2.1, r1.2 ++ r2.2)

/-- `decoder.decode(bytes, {stream: true})`: fold `decodeByte` over the
chunk, carrying the decoder state across chunk boundaries. -/
def decodeChunk (s : DecoderState) : List Nat → DecoderState × List Char
  | [] => (s, [])
  | b :: bs =>
    let r1 := decodeByte s b
    let r2 := decodeChunk r1.1 bs
    (r2.1, r1.2 ++ r2.2)

/-! ## The framer (`chatStream`'s read loop)

The loop state is the decoder state, the undecoded-line `buffer`, and the
frame accumulator: the current frame's `eventName` and `dataLines`, and
whether the generator has returned (`finished`, set by the `[DONE]`
sentinel).  Once `finished` the real generator has returned and reads nothing
more; the model keeps folding but every step is a no-op on the frame state
and emits nothing, so the observable output is identical. -/

/-- The per-frame accumulator of the read loop: `eventName`, `dataLines`,
and whether the generator has returned. -/
structure FrameAcc where
  eventName : String
  dataLines : List String
  finished : Bool
deriving DecidableEq, Repr

/-- The `chatStream` loop state. -/
structure StreamState where
  dec : DecoderState
  buffer : List Char
  acc : FrameAcc
deriving Repr

/-- The accumulator at `OPEN`: default event name, no data lines. -/
def initAcc : FrameAcc := ⟨"message", [], false⟩

/-- The state at `OPEN`: fresh decoder, empty buffer, default accumulator. -/
def initStream : StreamState := ⟨initDecoder, [], initAcc⟩

/-- A reconstructed logical SSE frame: the event name in force and the data
lines (one per `data:` line, prefix stripped) when it was dispatched. -/
structure Frame where
  eventName : String
  dataLines : List String
deriving DecidableEq, Repr

/-- The chunk (zero or one) the interpreter emits for a frame. -/
def chunkOf (f : Frame) : List ChatStreamChunk :=
  (parseEvent f.eventName f.dataLines).chunk.toList

/-- The characters of the `event:` line marker. -/
def evMark : List Char := ['e', 'v', 'e', 'n', 't', ':']

/-- The characters of the `data:` line marker. -/
def dataMark : List Char := ['d', 'a', 't', 'a', ':']

/-- The body of `for (const rawLine of lines)`: right-trim the line
(`rawLine.trimEnd()`); a blank line dispatches the frame to `parseEvent`
(recording the logical frame when it has data lines), resets the frame state
and, on `[DONE]`, returns from the generator; an `event:` line replaces the
event name (`slice(6).trim() || 'message'`); a `data:` line appends
`slice(5).trimStart()`; anything else is ignored.  After the generator has
returned (`finished`) the line is never reached, modelled as a no-op. -/
def processLine (a : FrameAcc) (rawLine : List Char) :
    FrameAcc × List Frame × List ChatStreamChunk :=
  if a.finished then (a, [], [])
  else
    let line := trimEndList rawLine
    if line = [] then
      let parsed := parseEvent a.eventName a.dataLines
      (⟨"message", [], parsed.done⟩,
       if a.dataLines = [] then [] else [⟨a.eventName, a.dataLines⟩],
       parsed.chunk.toList)
    else if evMark.isPrefixOf line then
      let rest := trimList (line.drop 6)
      (⟨if rest = [] then "message" else String.mk rest, a.dataLines, a.finished⟩,
       [], [])
    else if dataMark.isPrefixOf line then
      (⟨a.eventName, a.dataLines ++ [String.mk (trimStartList (line.drop 5))],
        a.finished⟩, [], [])
    else (a, [], [])

/-- Process the completed lines of one read, in order. -/
def processLines (a : FrameAcc) :
    List (List Char) → FrameAcc × List Frame × List ChatStreamChunk
  | [] => (a, [], [])
  | l :: ls =>
    let r1 := processLine a l
    let r2 := processLines r1.1 ls
    (r2.1, r1.2.1 ++ r2.2.1, r1.2.2 ++ r2.2.2)

/-- Prepend a character to the first line of a split result; when there is no
complete line it goes onto the remainder. -/
def consLine (c : Char) (r : List (List Char) × List Char) :
    List (List Char) × List Char :=
  match r.1 with
  | [] => ([], c :: r.2)
  | l :: ls => ((c :: l) :: ls, r.2)

/-- `buffer.split('\n')` with the popped last element (the new buffer
content) separated from the complete lines:
`splitBuf cs = (completeLines, lines.pop())`. -/
def splitBuf : List Char → List (List Char) × List Char
  | [] => ([], [])
  | c :: cs =>
    if c = '\n' then ([] :: (splitBuf cs).1, (splitBuf cs).2)
    else consLine c (splitBuf cs)

/-- Append freshly decoded text to the buffer, split off the complete lines,
retain the remainder as the new buffer, and process the lines
(`buffer += decoded; lines = buffer.split('\n'); buffer = lines.pop()`). -/
def feedText (s : StreamState) (t : List Char) :
    StreamState × List Frame × List ChatStreamChunk :=
  let r := splitBuf (s.buffer ++ t)
  let p := processLines s.acc r.1
  (⟨s.dec, r.2, p.1⟩, p.2.1, p.2.2)

/-- One iteration of `while (true)` for a successful `reader.read()`:
decode the chunk (streaming) and feed the text to the line splitter. -/
def pump (s : StreamState) (bytes : List Nat) :
    StreamState × List Frame × List ChatStreamChunk :=
  let d := decodeChunk s.dec bytes
  feedText ⟨d.1, s.buffer, s.acc⟩ d.2

/-- Run the read loop over a whole sequence of transport chunks. -/
def runChunks (s : StreamState) :
    List (List Nat) → StreamState × List Frame × List ChatStreamChunk
  | [] => (s, [], [])
  | c :: cs =>
    let r1 := pump s c
    let r2 := runChunks r1.1 cs
    (r2.1, r1.2.1 ++ r2.2.1, r1.2.2 ++ r2.2.2)

/-- The `done` branch of the read loop: right-trim the remaining buffer and
treat it as one closing line under the `event:`/`data:` rules, then
interpret the pending frame and yield its chunk, if any. -/
def finishTail (s : StreamState) : List Frame × List ChatStreamChunk :=
  let tail := trimEndList s.buffer
  let a :=
    if evMark.isPrefixOf tail then
      let rest := trimList (tail.drop 6)
      (⟨if rest = [] then "message" else String.mk rest, s.acc.dataLines,
        s.acc.finished⟩ : FrameAcc)
    else if dataMark.isPrefixOf tail then
      ⟨s.acc.eventName,
       s.acc.dataLines ++ [String.mk (trimStartList (tail.drop 5))],
       s.acc.finished⟩
    else s.acc
  let parsed := parseEvent a.eventName a.dataLines
  (if a.dataLines = [] then [] else [⟨a.eventName, a.dataLines⟩],
   parsed.chunk.toList)

/-- The logical frames `chatStream` reconstructs from a chunked byte stream
(including the trailing unterminated frame flushed at end-of-stream; after an
early `[DONE]` return the done-branch never runs). -/
def chatStreamFrames (chunks : List (List Nat)) : List Frame :=
  let r := runChunks initStream chunks
  r.2.1 ++ (if r.1.acc.finished then [] else (finishTail r.1).1)

/-- The chunk sequence `chatStream` yields for a chunked byte stream. -/
def chatStreamChunks (chunks : List (List Nat)) : List ChatStreamChunk :=
  let r := runChunks initStream chunks
  r.2.2 ++ (if r.1.acc.finished then [] else (finishTail r.1).2)

/-! ## Chunk-boundary invariance

The byte-level step of the loop is a homomorphism for chunk concatenation:
decoding, buffering and line processing carry all cross-chunk information in
the state, so the transcript of a split stream equals the transcript of the
unsplit stream. -/

theorem decodeChunk_append (s : DecoderState) (b1 b2 : List Nat) :
    decodeChunk s (b1 ++ b2) =
      ((decodeChunk (decodeChunk s b1).1 b2).1,
       (decodeChunk s b1).2 ++ (decodeChunk (decodeChunk s b1).1 b2).2) := by
  induction b1 generalizing s with
  | nil => simp [decodeChunk]
  | cons b bs ih => simp [decodeChunk, ih]

theorem processLines_append (a : FrameAcc) (l1 l2 : List (List Char)) :
    processLines a (l1 ++ l2) =
      ((processLines (processLines a l1).1 l2).1,
       (processLines a l1).2.1 ++ (processLines (processLines a l1).1 l2).2.1,
       (processLines a l1).2.2 ++ (processLines (processLines a l1).1 l2).2.2) := by
  induction l1 generalizing a with
  | nil => simp [processLines]
  | cons l ls ih => simp [processLines, ih]

theorem splitBuf_append (a b : List Char) :
    splitBuf (a ++ b) =
      ((splitBuf a).1 ++ (splitBuf ((splitBuf a).2 ++ b)).1,
       (splitBuf ((splitBuf a).2 ++ b)).2) := by
  induction a with
  | nil => simp [splitBuf]
  | cons c cs ih =>
    by_cases hc : c = '\n'
    · subst hc
      simp [splitBuf, ih]
    · simp only [List.cons_append, splitBuf, if_neg hc, List.append_eq]
      rw [ih]
      cases h1 : (splitBuf cs).1 with
      | nil =>
        simp only [h1, List.nil_append, consLine, splitBuf, if_neg hc]
        cases h2 : (splitBuf ((splitBuf cs).2 ++ b)).1 with
        | nil => simp [consLine, h2]
        | cons x xs => simp [consLine, h2]
      | cons l ls => simp [consLine, h1]

theorem feedText_append (s : StreamState) (t1 t2 : List Char) :
    feedText s (t1 ++ t2) =
      ((feedText (feedText s t1).1 t2).1,
       (feedText s t1).2.1 ++ (feedText (feedText s t1).1 t2).2.1,
       (feedText s t1).2.2 ++ (feedText (feedText s t1).1 t2).2.2) := by
  show feedText s (t1 ++ t2) = _
  simp only [feedText, ← List.append_assoc, splitBuf_append (s.buffer ++ t1) t2,
    processLines_append]

theorem pump_append (s : StreamState) (b1 b2 : List Nat) :
    pump s (b1 ++ b2) =
      ((pump (pump s b1).1 b2).1,
       (pump s b1).2.1 ++ (pump (pump s b1).1 b2).2.1,
       (pump s b1).2.2 ++ (pump (pump s b1).1 b2).2.2) := by
  simp only [pump, decodeChunk_append]
  rw [feedText_append]
  simp only [feedText]

/-- The remainder a buffer split leaves behind never contains a newline. -/
theorem splitBuf_snd_noNl (cs : List Char) : '\n' ∉ (splitBuf cs).2 := by
  induction cs with
  | nil => simp [splitBuf]
  | cons c cs ih =>
    by_cases hc : c = '\n'
    · subst hc; simpa [splitBuf] using ih
    · simp only [splitBuf, if_neg hc]
      cases h1 : (splitBuf cs).1 with
      | nil =>
        simp only [consLine, h1, List.mem_cons]
        rintro (rfl | h)
        · exact hc rfl
        · exact ih h
      | cons l ls => simpa [consLine, h1] using ih

/-- Splitting a newline-free buffer yields no complete line and the buffer
itself as the remainder. -/
theorem splitBuf_noNl (cs : List Char) (h : '\n' ∉ cs) :
    splitBuf cs = ([], cs) := by
  induction cs with
  | nil => simp [splitBuf]
  | cons c cs ih =>
    simp only [List.mem_cons, not_or] at h
    have hc : ¬c = '\n' := fun hh => h.1 hh.symm
    simp [splitBuf, hc, ih h.2, consLine]

/-- Running the loop over a chunk list with a newline-free buffer is one pump
of the concatenated bytes. -/
theorem runChunks_eq_pump_join (s : StreamState) (cs : List (List Nat))
    (h : '\n' ∉ s.buffer) :
    runChunks s cs = pump s cs.flatten := by
  induction cs generalizing s with
  | nil =>
    simp [runChunks, pump, decodeChunk, feedText, splitBuf_noNl s.buffer h,
      processLines]
  | cons c cs ih =>
    have hb : '\n' ∉ (pump s c).1.buffer := by
      simp only [pump, feedText]
      exact splitBuf_snd_noNl _
    simp [runChunks, ih _ hb, List.flatten, pump_append]

/-! ## Well-formed SSE frames and their encodings

`FrameSpec` is a specification-level SSE frame: an optional event name and
the data payload lines.  `frameText` is its canonical wire encoding
(`event:<name>\n`, then `data:<line>\n` per data line, then the blank-line
terminator).  `wellFormed` carves out the frames the SSE grammar considers
unambiguous: a non-empty whitespace-free event name when present, data lines
free of line breaks and of leading/trailing whitespace, at least one data
line, and a payload other than the `[DONE]` sentinel. -/

structure FrameSpec where
  eventName : Option String
  dataLines : List String

/-- An SSE event name the framer parses back verbatim: non-empty, no
whitespace characters (hence `trim`-stable), no newline. -/
def eventNameOk (n : String) : Prop :=
  n ≠ "" ∧ ∀ c ∈ n.data, jsWs c = false

instance (n : String) : Decidable (eventNameOk n) := by
  unfold eventNameOk; infer_instance

/-- A data payload line the framer parses back verbatim: no newline, stable
under `trimEnd` and `trimStart`. -/
def dataLineOk (d : String) : Prop :=
  '\n' ∉ d.data ∧ trimEndList d.data = d.data ∧ trimStartList d.data = d.data

instance (d : String) : Decidable (dataLineOk d) := by
  unfold dataLineOk; infer_instance

/-- `eventNameOk` lifted to the optional event name. -/
def eventNameOkOpt : Option String → Prop
  | some n => eventNameOk n
  | none => True

instance : ∀ o : Option String, Decidable (eventNameOkOpt o)
  | some n => inferInstanceAs (Decidable (eventNameOk n))
  | none => inferInstanceAs (Decidable True)

/-- A well-formed, non-sentinel SSE frame. -/
def wellFormed (f : FrameSpec) : Prop :=
  eventNameOkOpt f.eventName ∧
  f.dataLines ≠ [] ∧
  (∀ d ∈ f.dataLines, dataLineOk d) ∧
  joinNl f.dataLines ≠ "[DONE]"

instance (f : FrameSpec) : Decidable (wellFormed f) := by
  unfold wellFormed; infer_instance

/-- The logical frame a `FrameSpec` denotes (absent event name defaults to
`message`). -/
def toFrame (f : FrameSpec) : Frame :=
  ⟨f.eventName.getD "message", f.dataLines⟩

/-- The lines of a frame's encoding: the optional `event:` line, one `data:`
line per payload line, and the blank terminator line. -/
def frameLines (f : FrameSpec) : List (List Char) :=
  (match f.eventName with
   | some n => [evMark ++ n.data]
   | none => []) ++
  f.dataLines.map (fun d => dataMark ++ d.data) ++ [[]]

/-- The lines of the concatenated encodings of a frame list. -/
def framesLines (fs : List FrameSpec) : List (List Char) :=
  (fs.map frameLines).flatten

/-- Rejoin lines into wire text, one `\n` after each line. -/
def linesToText (ls : List (List Char)) : List Char :=
  (ls.map (fun l => l ++ ['\n'])).flatten

/-- The wire encoding of one frame. -/
def frameText (f : FrameSpec) : List Char := linesToText (frameLines f)

/-- The wire encoding of a frame sequence. -/
def framesText (fs : List FrameSpec) : List Char := linesToText (framesLines fs)

/-- The chunks the interpreter emits for a frame sequence, in order. -/
def chunksOfFrames (l : List Frame) : List ChatStreamChunk :=
  (l.map chunkOf).flatten

/-! ## Frame reconstruction lemmas -/

theorem dropWhile_head_false {p : Char → Bool} {c : Char} {t : List Char}
    (h : List.dropWhile p (c :: t) = c :: t) : p c = false := by
  by_cases hc : p c
  · simp only [List.dropWhile_cons, hc, if_true] at h
    have hlen := congrArg List.length h
    have hle := (List.dropWhile_sublist (l := t) (p := p)).length_le
    simp at hlen
    omega
  · simpa using hc

/-- `trimEnd` leaves `xs ++ ys` alone when `ys` is non-empty and itself
`trimEnd`-stable. -/
theorem trimEndList_append_stable (xs ys : List Char)
    (hys : trimEndList ys = ys) (hne : ys ≠ []) :
    trimEndList (xs ++ ys) = xs ++ ys := by
  have h1 : ys.reverse.dropWhile jsWs = ys.reverse := by
    have := congrArg List.reverse hys
    simpa [trimEndList] using this
  unfold trimEndList
  rw [List.reverse_append]
  cases hy : ys.reverse with
  | nil => exact absurd (by simpa using congrArg List.reverse hy) hne
  | cons c t =>
    rw [hy] at h1
    have hc : jsWs c = false := dropWhile_head_false h1
    have hys2 : ys = t.reverse ++ [c] := by simpa using congrArg List.reverse hy
    simp [List.dropWhile_cons, hc, hys2]

/-- A list of whitespace-free characters is `trimEnd`-stable. -/
theorem trimEndList_of_nows (xs : List Char) (h : ∀ c ∈ xs, jsWs c = false) :
    trimEndList xs = xs := by
  unfold trimEndList
  rw [List.dropWhile_eq_self_iff.2]
  · simp
  · intro hne
    simp only [Bool.not_eq_true]
    exact h _ (by simp [List.get_mem])

/-- A list of whitespace-free characters is `trimStart`-stable. -/
theorem trimStartList_of_nows (xs : List Char) (h : ∀ c ∈ xs, jsWs c = false) :
    trimStartList xs = xs := by
  unfold trimStartList
  rw [List.dropWhile_eq_self_iff.2]
  intro hne
  simp only [Bool.not_eq_true]
  exact h _ (List.get_mem _ _ _)

/-- `parseEvent` signals termination exactly when there are data lines and
their joined payload is the `[DONE]` sentinel. -/
theorem parseEvent_done_iff (ev : String) (ds : List String) :
    (parseEvent ev ds).done = true ↔ ds ≠ [] ∧ joinNl ds = "[DONE]" := by
  unfold parseEvent
  by_cases h : ds = []
  · simp [h]
  · simp only [if_neg h]
    by_cases h2 : joinNl ds = "[DONE]"
    · simp [h2, h]
    · simp only [if_neg h2]
      cases parseJson (joinNl ds) with
      | none => simp [h2]
      | some v => cases v <;> (simp [h2]; try (split_ifs <;> simp))

theorem processLine_blank (a : FrameAcc) (h : a.finished = false) :
    processLine a [] =
      (⟨"message", [], (parseEvent a.eventName a.dataLines).done⟩,
       if a.dataLines = [] then [] else [⟨a.eventName, a.dataLines⟩],
       (parseEvent a.eventName a.dataLines).chunk.toList) := by
  simp [processLine, h, trimEndList]

theorem processLine_event (a : FrameAcc) (n : String) (hf : a.finished = false)
    (hn : eventNameOk n) :
    processLine a (evMark ++ n.data) = (⟨n, a.dataLines, false⟩, [], []) := by
  obtain ⟨hne, hws⟩ := hn
  have hnd : n.data ≠ [] := by
    intro h
    exact hne (by cases n; simp_all)
  have htrim : trimEndList (evMark ++ n.data) = evMark ++ n.data :=
    trimEndList_append_stable _ _ (trimEndList_of_nows _ hws) hnd
  have hdrop : (evMark ++ n.data).drop 6 = n.data := by
    simp [evMark]
  have hpre : evMark.isPrefixOf (evMark ++ n.data) = true :=
    List.isPrefixOf_iff_prefix.2 (List.prefix_append _ _)
  simp only [processLine, hf, Bool.false_eq_true, if_false, htrim]
  rw [if_neg (by simp [evMark]), if_pos hpre, hdrop]
  have : trimList n.data = n.data := by
    unfold trimList
    rw [trimEndList_of_nows _ hws, trimStartList_of_nows _ hws]
  rw [this, if_neg hnd]

theorem processLine_data (a : FrameAcc) (d : String) (hf : a.finished = false)
    (hd : dataLineOk d) :
    processLine a (dataMark ++ d.data) =
      (⟨a.eventName, a.dataLines ++ [d], false⟩, [], []) := by
  obtain ⟨hnl, hte, hts⟩ := hd
  have htrim : trimEndList (dataMark ++ d.data) = dataMark ++ d.data := by
    cases hdd : d.data with
    | nil => simp only [hdd, List.append_nil]; decide
    | cons c cs =>
      rw [← hdd]
      exact trimEndList_append_stable _ _ (by rw [hte]) (by simp [hdd])
  have hdrop : (dataMark ++ d.data).drop 5 = d.data := by
    simp [dataMark]
  have hpre : dataMark.isPrefixOf (dataMark ++ d.data) = true :=
    List.isPrefixOf_iff_prefix.2 (List.prefix_append _ _)
  have hnev : evMark.isPrefixOf (dataMark ++ d.data) = false := by
    simp [evMark, dataMark, List.isPrefixOf]
  simp only [processLine, hf, Bool.false_eq_true, if_false, htrim]
  rw [if_neg (by simp [dataMark]), if_neg (by simp [hnev]), if_pos hpre, hdrop, hts]

theorem processLines_data (a : FrameAcc) (ds : List String)
    (hf : a.finished = false) (hds : ∀ d ∈ ds, dataLineOk d) :
    processLines a (ds.map (fun d => dataMark ++ d.data)) =
      (⟨a.eventName, a.dataLines ++ ds, false⟩, [], []) := by
  induction ds generalizing a with
  | nil =>
    cases a
    simp_all [processLines]
  | cons d ds ih =>
    simp only [List.map_cons, processLines,
      processLine_data a d hf (hds d (by simp))]
    rw [ih ⟨a.eventName, a.dataLines ++ [d], false⟩ rfl
      (fun x hx => hds x (by simp [hx]))]
    simp

theorem processFrame (f : FrameSpec) (hw : wellFormed f) :
    processLines initAcc (frameLines f) =
      (initAcc, [toFrame f], chunkOf (toFrame f)) := by
  obtain ⟨hev, hne, hds, hdone⟩ := hw
  have htail : ∀ ev : String,
      processLines ⟨ev, [], false⟩
        (f.dataLines.map (fun d => dataMark ++ d.data) ++ [[]]) =
      (⟨"message", [], (parseEvent ev f.dataLines).done⟩,
       [⟨ev, f.dataLines⟩],
       (parseEvent ev f.dataLines).chunk.toList) := by
    intro ev
    rw [processLines_append, processLines_data _ _ rfl hds]
    simp [processLines, processLine_blank ⟨ev, f.dataLines, false⟩ rfl, hne]
  have hdone' : ∀ ev, (parseEvent ev f.dataLines).done = false := by
    intro ev
    rw [Bool.eq_false_iff]
    intro hd
    exact hdone ((parseEvent_done_iff _ _).1 hd).2
  cases hfe : f.eventName with
  | none =>
    have h := htail "message"
    simp only [frameLines, hfe, List.nil_append] at h ⊢
    rw [show (initAcc : FrameAcc) = ⟨"message", [], false⟩ from rfl, h]
    simp [toFrame, hfe, chunkOf, hdone', initAcc]
  | some n =>
    simp only [frameLines, hfe, List.singleton_append, processLines]
    simp only [hfe, eventNameOkOpt] at hev
    rw [show (initAcc : FrameAcc) = ⟨"message", [], false⟩ from rfl,
      processLine_event _ _ rfl hev]
    dsimp only [List.append_eq]
    rw [htail n]
    simp [toFrame, hfe, chunkOf, hdone', initAcc]

theorem processFrames (fs : List FrameSpec) (hw : ∀ f ∈ fs, wellFormed f) :
    processLines initAcc (framesLines fs) =
      (initAcc, fs.map toFrame, chunksOfFrames (fs.map toFrame)) := by
  induction fs with
  | nil => simp [framesLines, processLines, chunksOfFrames]
  | cons f fs ih =>
    simp only [framesLines, List.map_cons, List.flatten_cons]
    rw [processLines_append]
    rw [show framesLines fs = (fs.map frameLines).flatten from rfl] at ih
    rw [processFrame f (hw f (by simp)), ih (fun g hg => hw g (by simp [hg]))]
    simp [chunksOfFrames]

theorem splitBuf_line (l rest : List Char) (h : '\n' ∉ l) :
    splitBuf (l ++ '\n' :: rest) = (l :: (splitBuf rest).1, (splitBuf rest).2) := by
  induction l with
  | nil => simp [splitBuf]
  | cons c cs ih =>
    have hc : ¬c = '\n' := by
      rintro rfl
      exact h (by simp)
    have h2 : '\n' ∉ cs := fun hh => h (by simp [hh])
    simp [splitBuf, hc, ih h2, consLine]

theorem splitBuf_lines (ls : List (List Char)) (rest : List Char)
    (hls : ∀ l ∈ ls, '\n' ∉ l) (hr : '\n' ∉ rest) :
    splitBuf (linesToText ls ++ rest) = (ls, rest) := by
  induction ls with
  | nil => simpa [linesToText] using splitBuf_noNl rest hr
  | cons l ls ih =>
    have : linesToText (l :: ls) ++ rest = l ++ '\n' :: (linesToText ls ++ rest) := by
      simp [linesToText]
    rw [this, splitBuf_line _ _ (hls l (by simp)),
      ih (fun x hx => hls x (by simp [hx]))]

theorem frameLines_noNl (f : FrameSpec) (hw : wellFormed f) :
    ∀ l ∈ frameLines f, '\n' ∉ l := by
  obtain ⟨hev, hne, hds, hdone⟩ := hw
  intro l hl
  simp only [frameLines, List.mem_append, List.mem_map] at hl
  rcases hl with (hl | ⟨d, hd, rfl⟩) | hl
  · cases hfe : f.eventName with
    | none => simp [hfe] at hl
    | some n =>
      simp only [hfe, List.mem_singleton] at hl
      simp only [hfe, eventNameOkOpt] at hev
      subst hl
      intro hmem
      rcases List.mem_append.1 hmem with hm | hm
      · revert hm; decide
      · have := hev.2 _ hm
        simp [jsWs] at this
  · intro hmem
    rcases List.mem_append.1 hmem with hm | hm
    · revert hm; decide
    · exact (hds d hd).1 hm
  · simp only [List.mem_singleton] at hl
    subst hl
    simp

theorem pump_framesText (fs : List FrameSpec) (bytes : List Nat)
    (d : DecoderState) (hw : ∀ f ∈ fs, wellFormed f)
    (hdec : decodeChunk initDecoder bytes = (d, framesText fs)) :
    pump initStream bytes =
      (⟨d, [], initAcc⟩, fs.map toFrame, chunksOfFrames (fs.map toFrame)) := by
  have hsp : splitBuf (framesText fs) = (framesLines fs, []) := by
    have := splitBuf_lines (framesLines fs) []
      (fun l hl => by
        simp only [framesLines, List.mem_flatten] at hl
        obtain ⟨ll, hll, hmem⟩ := hl
        obtain ⟨g, hg, rfl⟩ := List.mem_map.1 hll
        exact frameLines_noNl g (hw g hg) l hmem)
      (by simp)
    simpa [framesText] using this
  show (let dd := decodeChunk initStream.dec bytes
    feedText ⟨dd.1, initStream.buffer, initStream.acc⟩ dd.2) = _
  rw [show initStream.dec = initDecoder from rfl, hdec]
  show feedText ⟨d, [], initAcc⟩ (framesText fs) = _
  unfold feedText
  simp only [List.nil_append, hsp]
  rw [processFrames fs hw]

/-! ## Claim theorems -/

/-- C1: split invariance of the framer.  For every byte sequence that (as one
UTF-8 stream) decodes to the encoding of well-formed SSE frames `fs`, and
every way of cutting that byte sequence into successive chunks (`chunks`,
arbitrary byte offsets — including inside a multi-byte UTF-8 character, and
including empty chunks), `chatStream` reconstructs exactly the frames of `fs`
— the same count, event names and data payloads — and yields the same chunk
sequence, both equal to what the whole sequence arriving as a single chunk
produces. -/
theorem chatStream_split_invariance
    (fs : List FrameSpec) (bytes : List Nat) (chunks : List (List Nat))
    (d : DecoderState)
    (hw : ∀ f ∈ fs, wellFormed f)
    (hdec : decodeChunk initDecoder bytes = (d, framesText fs))
    (hsplit : chunks.flatten = bytes) :
    (∀ cs : List (List Nat),
      chatStreamFrames cs = chatStreamFrames [cs.flatten] ∧
      chatStreamChunks cs = chatStreamChunks [cs.flatten]) ∧
    chatStreamFrames chunks = fs.map toFrame ∧
    chatStreamFrames chunks = chatStreamFrames [bytes] ∧
    chatStreamChunks chunks = chunksOfFrames (fs.map toFrame) ∧
    chatStreamChunks chunks = chatStreamChunks [bytes] := by
  have hrun : runChunks initStream chunks = pump initStream bytes := by
    rw [runChunks_eq_pump_join initStream chunks (by simp [initStream]), hsplit]
  have hrun1 : runChunks initStream [bytes] = pump initStream bytes := by
    rw [runChunks_eq_pump_join initStream [bytes] (by simp [initStream])]
    simp
  have hp := pump_framesText fs bytes d hw hdec
  have htail : finishTail ⟨d, [], ⟨"message", [], false⟩⟩ = ([], []) := by
    simp [finishTail, trimEndList, parseEvent, List.isPrefixOf, evMark, dataMark]
  refine ⟨?_, ?_, ?_, ?_, ?_⟩
  · intro cs
    have h1 : runChunks initStream cs = pump initStream cs.flatten :=
      runChunks_eq_pump_join initStream cs (by simp [initStream])
    have h2 : runChunks initStream [cs.flatten] = pump initStream cs.flatten := by
      rw [runChunks_eq_pump_join initStream [cs.flatten] (by simp [initStream])]
      simp
    exact ⟨by simp [chatStreamFrames, h1, h2], by simp [chatStreamChunks, h1, h2]⟩
  · simp [chatStreamFrames, hrun, hp, initAcc, htail]
  · simp [chatStreamFrames, hrun, hrun1]
  · simp [chatStreamChunks, hrun, hp, initAcc, htail]
  · simp [chatStreamChunks, hrun, hrun1]

/-- The frames of the C1 witness: one default-event frame whose payload is
`"aé"` (a two-byte UTF-8 character). -/
def c1Frames : List FrameSpec := [⟨none, ["aé"]⟩]

/-- The C1 witness bytes: `data:aé\n\n` in UTF-8 (the `é` is `C3 A9`). -/
def c1Bytes : List Nat := [100, 97, 116, 97, 58, 97, 195, 169, 10, 10]

/-- The C1 witness split: the cut falls between the two bytes of `é`. -/
def c1Chunks : List (List Nat) := [[100, 97, 116, 97, 58, 97, 195], [], [169, 10, 10]]

theorem chatStream_split_invariance_witness :
    (chatStreamFrames c1Chunks = chatStreamFrames [c1Chunks.flatten] ∧
     chatStreamChunks c1Chunks = chatStreamChunks [c1Chunks.flatten]) ∧
    chatStreamFrames c1Chunks = c1Frames.map toFrame ∧
    chatStreamFrames c1Chunks = chatStreamFrames [c1Bytes] ∧
    chatStreamChunks c1Chunks = chunksOfFrames (c1Frames.map toFrame) ∧
    chatStreamChunks c1Chunks = chatStreamChunks [c1Bytes] := by
  have h := chatStream_split_invariance c1Frames c1Bytes c1Chunks
    ⟨0, 0, 0, 0x80, 0xbf, true⟩
    (by decide) (by decide) (by decide)
  exact ⟨h.1 c1Chunks, h.2⟩

/-! ## Termination and error absorption -/

theorem processLines_finished (a : FrameAcc) (ls : List (List Char))
    (h : a.finished = true) : processLines a ls = (a, [], []) := by
  induction ls with
  | nil => rfl
  | cons l ls ih => simp [processLines, processLine, h, ih]

theorem runChunks_append (s : StreamState) (c1 c2 : List (List Nat)) :
    runChunks s (c1 ++ c2) =
      ((runChunks (runChunks s c1).1 c2).1,
       (runChunks s c1).2.1 ++ (runChunks (runChunks s c1).1 c2).2.1,
       (runChunks s c1).2.2 ++ (runChunks (runChunks s c1).1 c2).2.2) := by
  induction c1 generalizing s with
  | nil => simp [runChunks]
  | cons c cs ih => simp [runChunks, ih]

/-- After the generator has returned, pumping more bytes leaves the frame
state untouched and emits nothing. -/
theorem pump_finished_noop (s : StreamState) (c : List Nat)
    (h : s.acc.finished = true) :
    (pump s c).1.acc = s.acc ∧ (pump s c).2.1 = [] ∧ (pump s c).2.2 = [] := by
  simp [pump, feedText, processLines_finished _ _ h]

theorem runChunks_finished_noop (s : StreamState) (cs : List (List Nat))
    (h : s.acc.finished = true) :
    (runChunks s cs).1.acc = s.acc ∧
    (runChunks s cs).2.1 = [] ∧ (runChunks s cs).2.2 = [] := by
  induction cs generalizing s with
  | nil => exact ⟨rfl, rfl, rfl⟩
  | cons c cs ih =>
    obtain ⟨ha, hf, hc⟩ := pump_finished_noop s c h
    obtain ⟨ha2, hf2, hc2⟩ := ih (pump s c).1 (by rw [ha]; exact h)
    refine ⟨by simp [runChunks, ha2, ha], ?_, ?_⟩ <;>
      simp [runChunks, hf, hc, hf2, hc2]

/-- C2: `[DONE]` termination.  A completed frame whose data lines join to the
literal `[DONE]` produces no chunk and signals termination, and once the
generator has terminated, any further transport chunks — well-formed frames
included — contribute no frames and no chunks: the output of the extended
stream is exactly the output already produced. -/
theorem doneTerminatesStream :
    (∀ ev ds, ds ≠ [] → joinNl ds = "[DONE]" →
      parseEvent ev ds = ⟨none, true⟩) ∧
    (∀ cs rest : List (List Nat),
      (runChunks initStream cs).1.acc.finished = true →
      chatStreamFrames (cs ++ rest) = chatStreamFrames cs ∧
      chatStreamChunks (cs ++ rest) = chatStreamChunks cs ∧
      chatStreamFrames cs = (runChunks initStream cs).2.1 ∧
      chatStreamChunks cs = (runChunks initStream cs).2.2) := by
  constructor
  · intro ev ds h1 h2
    simp [parseEvent, h1, h2]
  · intro cs rest h
    obtain ⟨ha, hf, hc⟩ := runChunks_finished_noop (runChunks initStream cs).1 rest h
    have happ := runChunks_append initStream cs rest
    have hfin2 : (runChunks initStream (cs ++ rest)).1.acc.finished = true := by
      rw [happ]
      simpa [ha] using h
    refine ⟨?_, ?_, ?_, ?_⟩ <;>
      simp [chatStreamFrames, chatStreamChunks, happ, hf, hc, h, ha, hfin2]

/-- The C2 witness prefix: a `[DONE]` frame. -/
def c2Pre : List (List Nat) := [[100, 97, 116, 97, 58, 91, 68, 79, 78, 69, 93, 10, 10]]

/-- The C2 witness suffix: a further well-formed frame
(`data:\x7b"choices":[\x7b"delta":\x7b"content":"Hi"\x7d\x7d]\x7d`, which
alone would yield a chunk). -/
def c2Rest : List (List Nat) :=
  [("data:\x7b\"choices\":[\x7b\"delta\":\x7b\"content\":\"Hi\"\x7d\x7d]\x7d"
      ++ "\n\n").data.map Char.toNat]

theorem doneTerminatesStream_witness :
    parseEvent "message" ["[DONE]"] = ⟨none, true⟩ ∧
    chatStreamFrames (c2Pre ++ c2Rest) = chatStreamFrames c2Pre ∧
    chatStreamChunks (c2Pre ++ c2Rest) = chatStreamChunks c2Pre := by
  have h := doneTerminatesStream
  have h2 := h.2 c2Pre c2Rest (by decide)
  exact ⟨h.1 "message" ["[DONE]"] (by decide) (by decide), h2.1, h2.2.1⟩

/-- C3: malformed payloads are non-fatal.  A completed frame whose payload is
non-empty, is not `[DONE]`, and does not parse as JSON emits no chunk and
does not terminate (the `catch` branch), and inserting such a frame in front
of any later lines leaves the framer state and every later frame's chunk
exactly as they are without it (only the malformed logical frame itself is
recorded). -/
theorem malformedPayloadNonfatal :
    (∀ ev ds, ds ≠ [] → joinNl ds ≠ "[DONE]" → parseJson (joinNl ds) = none →
      parseEvent ev ds = ⟨none, false⟩) ∧
    (∀ (mf : FrameSpec) (ls : List (List Char)), wellFormed mf →
      parseJson (joinNl mf.dataLines) = none →
      processLines initAcc (frameLines mf ++ ls) =
        ((processLines initAcc ls).1,
         toFrame mf :: (processLines initAcc ls).2.1,
         (processLines initAcc ls).2.2)) := by
  have parta : ∀ ev ds, ds ≠ [] → joinNl ds ≠ "[DONE]" →
      parseJson (joinNl ds) = none → parseEvent ev ds = ⟨none, false⟩ := by
    intro ev ds h1 h2 h3
    simp [parseEvent, h1, h2, h3]
  refine ⟨parta, ?_⟩
  intro mf ls hw hpj
  rw [processLines_append, processFrame mf hw]
  have hch : chunkOf (toFrame mf) = [] := by
    unfold chunkOf
    rw [show (toFrame mf).dataLines = mf.dataLines from rfl,
      parta _ _ hw.2.1 hw.2.2.2 hpj]
    rfl
  simp [hch]

/-- The C3 witness: the malformed frame `data:notjson`, followed by the lines
of a well-formed frame that yields a chunk. -/
def c3Bad : FrameSpec := ⟨none, ["notjson"]⟩

/-- The following well-formed frame of the C3 witness. -/
def c3Good : FrameSpec :=
  ⟨none, ["\x7b\"choices\":[\x7b\"delta\":\x7b\"content\":\"Hi\"\x7d\x7d]\x7d"]⟩

theorem malformedPayloadNonfatal_witness :
    parseEvent "message" ["notjson"] = ⟨none, false⟩ ∧
    processLines initAcc (frameLines c3Bad ++ frameLines c3Good) =
      ((processLines initAcc (frameLines c3Good)).1,
       toFrame c3Bad :: (processLines initAcc (frameLines c3Good)).2.1,
       (processLines initAcc (frameLines c3Good)).2.2) := by
  have h := malformedPayloadNonfatal
  exact ⟨h.1 "message" ["notjson"] (by decide) (by decide) (by rfl),
    h.2 c3Bad (frameLines c3Good) (by decide) (by rfl)⟩

/-! ## Event interpretation -/

/-- `[DONE]` is not valid JSON, so a payload that parses cannot be the
sentinel. -/
theorem parseJson_done_string : parseJson "[DONE]" = none := by rfl

/-- C4: metadata-event handling.  For a `ragora_metadata` or `ragora_complete`
frame whose payload parses as a JSON object: sources are extracted preferring
`ragora_stats.sources` (when `ragora_stats` is a record with an array
`sources`) over top-level `sources`; a single chunk with empty content, no
finish reason and those sources is emitted when the extraction is non-empty,
and nothing is emitted otherwise. -/
theorem metadataEventSources (ev : String) (ds : List String)
    (fields : List (String × JSValue))
    (hev : ev = "ragora_metadata" ∨ ev = "ragora_complete")
    (hne : ds ≠ [])
    (hpj : parseJson (joinNl ds) = some (.obj fields)) :
    (parseEvent ev ds =
      if (extractChatSources fields).isEmpty then ⟨none, false⟩
      else ⟨some ⟨"", none, extractChatSources fields⟩, false⟩) ∧
    (∀ sf srcs, getField fields "ragora_stats" = .obj sf →
      getField sf "sources" = .arr srcs →
      extractChatSources fields = mapSearchResults (.arr srcs)) ∧
    ((∀ sf, getField fields "ragora_stats" = .obj sf →
        ∀ srcs, getField sf "sources" ≠ .arr srcs) →
      extractChatSources fields = mapSearchResults (getField fields "sources")) := by
  have hnd : joinNl ds ≠ "[DONE]" := by
    intro hd
    rw [hd, parseJson_done_string] at hpj
    exact absurd hpj (by simp)
  refine ⟨?_, ?_, ?_⟩
  · simp only [parseEvent, if_neg hne, if_neg hnd, hpj, hev, if_pos]
  · intro sf srcs h1 h2
    simp [extractChatSources, h1, h2]
  · intro hno
    unfold extractChatSources
    cases hsf : getField fields "ragora_stats" with
    | obj sf =>
      cases hsrc : getField sf "sources" with
      | arr es => exact absurd hsrc (hno sf hsf es)
      | undefined => simp [hsrc]
      | null => simp [hsrc]
      | bool b => simp [hsrc]
      | num n => simp [hsrc]
      | str s => simp [hsrc]
      | obj o => simp [hsrc]
    | undefined => rfl
    | null => rfl
    | bool b => rfl
    | num n => rfl
    | str s => rfl
    | arr es => rfl

/-- The C4 witness payload: `\x7b"ragora_stats":\x7b"sources":[\x7b"id":"a"\x7d]\x7d,
"sources":[\x7b"id":"b"\x7d]\x7d`. -/
def c4Json : String :=
  "\x7b\"ragora_stats\":\x7b\"sources\":[\x7b\"id\":\"a\"\x7d]\x7d,\"sources\":[\x7b\"id\":\"b\"\x7d]\x7d"

/-- The parsed fields of `c4Json`. -/
def c4Fields : List (String × JSValue) :=
  [("ragora_stats", .obj [("sources", .arr [.obj [("id", .str "a")]])]),
   ("sources", .arr [.obj [("id", .str "b")]])]

theorem metadataEventSources_witness :
    (parseEvent "ragora_metadata" [c4Json] =
      if (extractChatSources c4Fields).isEmpty then ⟨none, false⟩
      else ⟨some ⟨"", none, extractChatSources c4Fields⟩, false⟩) ∧
    extractChatSources c4Fields =
      mapSearchResults (.arr [.obj [("id", .str "a")]]) := by
  have h := metadataEventSources "ragora_metadata" [c4Json] c4Fields
    (Or.inl rfl) (by decide) (by rfl)
  exact ⟨h.1, h.2.1 [("sources", .arr [.obj [("id", .str "a")]])]
    [.obj [("id", .str "a")]] (by rfl) (by rfl)⟩

/-- C5 counterexample payload: a default-event frame with
`choices[0].finish_reason` present but equal to the empty string
(`\x7b"choices":[\x7b"finish_reason":""\x7d]\x7d`). -/
def c5Json : String := "\x7b\"choices\":[\x7b\"finish_reason\":\"\"\x7d]\x7d"

/-- The parsed fields of `c5Json`. -/
def c5Fields : List (String × JSValue) :=
  [("choices", .arr [.obj [("finish_reason", .str "")]])]

/-- C5 counterexample: the claim says a chunk is suppressed *exactly* when
content is empty, `finishReason` is **absent** and sources are empty.  Here
`finish_reason` is present (the string `""`, so `finishReasonOf` is
`some ""`, not `none`), content and sources are empty — yet the interpreter
emits nothing, because JavaScript's `!finishReason` also treats the empty
string as falsy.  The claim's biconditional therefore fails at this frame. -/
theorem defaultEventSuppression_counterexample :
    parseJson c5Json = some (.obj c5Fields) ∧
    contentOf c5Fields = "" ∧
    (extractChatSources c5Fields).isEmpty = true ∧
    finishReasonOf c5Fields = some "" ∧
    finishReasonOf c5Fields ≠ none ∧
    parseEvent "message" [c5Json] = ⟨none, false⟩ :=
  ⟨rfl, rfl, rfl, rfl, by rw [show finishReasonOf c5Fields = some "" from rfl]; simp, rfl⟩

/-- C5 (amended): default-event handling.  For a frame with any other event
name whose payload parses as a JSON object, the interpreter reads
`choices[0].delta.content` (empty string if absent or non-string),
`choices[0].finish_reason` (undefined if absent or non-string) and the
extracted sources; it emits no chunk exactly when the content is empty, the
finish reason is absent **or the empty string**, and the sources are empty;
otherwise it emits exactly one chunk `{content, finishReason, sources}`. -/
theorem defaultEventChunk (ev : String) (ds : List String)
    (fields : List (String × JSValue))
    (h1 : ev ≠ "ragora_metadata") (h2 : ev ≠ "ragora_complete")
    (hne : ds ≠ [])
    (hpj : parseJson (joinNl ds) = some (.obj fields)) :
    parseEvent ev ds =
      if contentOf fields = "" ∧
          (finishReasonOf fields = none ∨ finishReasonOf fields = some "") ∧
          (extractChatSources fields).isEmpty then ⟨none, false⟩
      else ⟨some ⟨contentOf fields, finishReasonOf fields, extractChatSources fields⟩,
            false⟩ := by
  have hnd : joinNl ds ≠ "[DONE]" := by
    intro hd
    rw [hd, parseJson_done_string] at hpj
    exact absurd hpj (by simp)
  simp only [parseEvent, if_neg hne, if_neg hnd, hpj]
  rw [if_neg (by simp [h1, h2])]

/-- The C5 witness payload: a content delta. -/
def c5bJson : String := "\x7b\"choices\":[\x7b\"delta\":\x7b\"content\":\"Hi\"\x7d\x7d]\x7d"

/-- The parsed fields of `c5bJson`. -/
def c5bFields : List (String × JSValue) :=
  [("choices", .arr [.obj [("delta", .obj [("content", .str "Hi")])]])]

theorem defaultEventChunk_witness :
    parseEvent "message" [c5bJson] =
      if contentOf c5bFields = "" ∧
          (finishReasonOf c5bFields = none ∨ finishReasonOf c5bFields = some "") ∧
          (extractChatSources c5bFields).isEmpty then ⟨none, false⟩
      else ⟨some ⟨contentOf c5bFields, finishReasonOf c5bFields,
            extractChatSources c5bFields⟩, false⟩ :=
  defaultEventChunk "message" [c5bJson] c5bFields
    (by decide) (by decide) (by decide) (by rfl)

/-! ## `SearchResult` coercion claims -/

/-- C6 counterexample: a record with a string `text` field and no `content`
field.  The claim promises `content = ""` whenever the `content` field is
absent, but the coercion prefers `text`, producing `"hi"`. -/
theorem searchResultContent_counterexample :
    getField [("text", JSValue.str "hi")] "content" = .undefined ∧
    (toSearchResult [("text", JSValue.str "hi")]).content = "hi" ∧
    ("hi" : String) ≠ "" :=
  ⟨rfl, rfl, by decide⟩

/-- C6 (amended): coercion invariants of `toSearchResult` /
`mapSearchResults`.  The produced `score` is always a finite number, and is
`0` when the `score` field is absent or does not coerce to a finite number
(the second conjunct is the absent case; the third states that whenever the
code's `parsedScore` — the field itself when a number, else its `Number(...)`
coercion — is not finite, the result is `0`, covering e.g. a `score` of
`"abc"`, `NaN` or `Infinity`); `metadata` is the empty record when the field
is absent or not a record; `content` is always a string, taken from the
`text` field when that is a string, else from `content` when that is a
string, else the empty string; and the list coercion skips entries that are
not records, without error. -/
theorem searchResultCoercion (raw : List (String × JSValue)) :
    (isFiniteNum (toSearchResult raw).score = true ∧
     (getField raw "score" = .undefined → (toSearchResult raw).score = .finite 0 0) ∧
     (isFiniteNum
        (match getField raw "score" with
         | .num n => n
         | _ => toNumber (nullishCoalesce (getField raw "score")
             (.num (.finite 0 0)))) = false →
       (toSearchResult raw).score = .finite 0 0) ∧
     (isRecord (getField raw "metadata") = false →
       (toSearchResult raw).metadata = []) ∧
     (∀ t, getField raw "text" = .str t → (toSearchResult raw).content = t) ∧
     ((∀ t, getField raw "text" ≠ .str t) →
       (∀ c, getField raw "content" = .str c → (toSearchResult raw).content = c) ∧
       ((∀ c, getField raw "content" ≠ .str c) →
         (toSearchResult raw).content = ""))) ∧
    (∀ (pre post : List JSValue) (v : JSValue), isRecord v = false →
      mapSearchResults (.arr (pre ++ v :: post)) =
        mapSearchResults (.arr (pre ++ post))) := by
  constructor
  · refine ⟨?_, ?_, ?_, ?_, ?_, ?_⟩
    · unfold toSearchResult
      by_cases h : isFiniteNum
          (match getField raw "score" with
           | .num n => n
           | _ => toNumber (nullishCoalesce (getField raw "score")
               (.num (.finite 0 0)))) = true
      · simp [h]
      · simp only [Bool.not_eq_true] at h
        simp only [h, Bool.false_eq_true, if_false]
        rfl
    · intro h
      simp [toSearchResult, h, nullishCoalesce, isNullish, toNumber, isFiniteNum]
    · intro h
      simp [toSearchResult, h]
    · intro h
      cases hm : getField raw "metadata" with
      | obj o => rw [hm] at h; simp [isRecord] at h
      | undefined => simp [toSearchResult, hm]
      | null => simp [toSearchResult, hm]
      | bool b => simp [toSearchResult, hm]
      | num n => simp [toSearchResult, hm]
      | str s => simp [toSearchResult, hm]
      | arr es => simp [toSearchResult, hm]
    · intro t h
      simp [toSearchResult, h]
    · intro h
      cases ht : getField raw "text" with
      | str s => exact absurd ht (h s)
      | undefined =>
        refine ⟨fun c hc => by simp [toSearchResult, ht, hc], fun hnc => ?_⟩
        cases hc : getField raw "content" with
        | str s => exact absurd hc (hnc s)
        | undefined => simp [toSearchResult, ht, hc]
        | null => simp [toSearchResult, ht, hc]
        | bool b => simp [toSearchResult, ht, hc]
        | num n => simp [toSearchResult, ht, hc]
        | arr es => simp [toSearchResult, ht, hc]
        | obj o => simp [toSearchResult, ht, hc]
      | null =>
        refine ⟨fun c hc => by simp [toSearchResult, ht, hc], fun hnc => ?_⟩
        cases hc : getField raw "content" with
        | str s => exact absurd hc (hnc s)
        | undefined => simp [toSearchResult, ht, hc]
        | null => simp [toSearchResult, ht, hc]
        | bool b => simp [toSearchResult, ht, hc]
        | num n => simp [toSearchResult, ht, hc]
        | arr es => simp [toSearchResult, ht, hc]
        | obj o => simp [toSearchResult, ht, hc]
      | bool b =>
        refine ⟨fun c hc => by simp [toSearchResult, ht, hc], fun hnc => ?_⟩
        cases hc : getField raw "content" with
        | str s => exact absurd hc (hnc s)
        | undefined => simp [toSearchResult, ht, hc]
        | null => simp [toSearchResult, ht, hc]
        | bool b2 => simp [toSearchResult, ht, hc]
        | num n => simp [toSearchResult, ht, hc]
        | arr es => simp [toSearchResult, ht, hc]
        | obj o => simp [toSearchResult, ht, hc]
      | num n =>
        refine ⟨fun c hc => by simp [toSearchResult, ht, hc], fun hnc => ?_⟩
        cases hc : getField raw "content" with
        | str s => exact absurd hc (hnc s)
        | undefined => simp [toSearchResult, ht, hc]
        | null => simp [toSearchResult, ht, hc]
        | bool b => simp [toSearchResult, ht, hc]
        | num n2 => simp [toSearchResult, ht, hc]
        | arr es => simp [toSearchResult, ht, hc]
        | obj o => simp [toSearchResult, ht, hc]
      | arr es =>
        refine ⟨fun c hc => by simp [toSearchResult, ht, hc], fun hnc => ?_⟩
        cases hc : getField raw "content" with
        | str s => exact absurd hc (hnc s)
        | undefined => simp [toSearchResult, ht, hc]
        | null => simp [toSearchResult, ht, hc]
        | bool b => simp [toSearchResult, ht, hc]
        | num n => simp [toSearchResult, ht, hc]
        | arr es2 => simp [toSearchResult, ht, hc]
        | obj o => simp [toSearchResult, ht, hc]
      | obj o =>
        refine ⟨fun c hc => by simp [toSearchResult, ht, hc], fun hnc => ?_⟩
        cases hc : getField raw "content" with
        | str s => exact absurd hc (hnc s)
        | undefined => simp [toSearchResult, ht, hc]
        | null => simp [toSearchResult, ht, hc]
        | bool b => simp [toSearchResult, ht, hc]
        | num n => simp [toSearchResult, ht, hc]
        | arr es => simp [toSearchResult, ht, hc]
        | obj o2 => simp [toSearchResult, ht, hc]
  · intro pre post v hv
    cases v <;> simp_all [mapSearchResults, List.filterMap_append, isRecord]

theorem searchResultCoercion_witness :
    isFiniteNum (toSearchResult [("content", JSValue.str "x")]).score = true ∧
    (toSearchResult [("content", JSValue.str "x")]).score = .finite 0 0 ∧
    (toSearchResult [("score", JSValue.str "abc")]).score = .finite 0 0 ∧
    (toSearchResult [("content", JSValue.str "x")]).content = "x" ∧
    mapSearchResults (.arr ([] ++ JSValue.null :: [JSValue.obj []])) =
      mapSearchResults (.arr ([] ++ [JSValue.obj []])) := by
  have h := searchResultCoercion [("content", JSValue.str "x")]
  refine ⟨(h.1).1, (h.1).2.1 (by rfl), ?_, ?_, ?_⟩
  · exact ((searchResultCoercion [("score", JSValue.str "abc")]).1).2.2.1 (by decide)
  · refine ((h.1).2.2.2.2.2 (fun t ht => ?_)).1 "x" (by rfl)
    rw [show getField [("content", JSValue.str "x")] "text" = .undefined from rfl] at ht
    exact JSValue.noConfusion ht
  · exact (searchResultCoercion []).2 [] [JSValue.obj []] .null (by rfl)

/-! ## Line trimming (C7) -/

/-- C7 counterexample: the framer trims a trailing tab from a `data:` line
(the bytes are `data:x\t\n\n`), so the reconstructed payload is `"x"`,
not the claimed `"x\t"` that right-trimming only `\r` would preserve. -/
theorem lineTrimming_counterexample :
    chatStreamFrames [[100, 97, 116, 97, 58, 120, 9, 10, 10]] =
      [⟨"message", ["x"]⟩] ∧
    chatStreamFrames [[100, 97, 116, 97, 58, 120, 9, 10, 10]] ≠
      [⟨"message", ["x\t"]⟩] := by
  constructor
  · decide
  · decide

/-- C7 (amended): each complete line is right-trimmed of **all** trailing
JavaScript whitespace (`trimEnd`, which includes `\r`, tabs, spaces, …)
before the `event:`/`data:`/blank classification; no characters other than
such a whitespace suffix are removed.  Stated as: a trailing all-whitespace
suffix never affects line processing, and `trimEnd` only splits off a
whitespace suffix. -/
theorem lineTrimming (a : FrameAcc) (raw w : List Char)
    (hw : ∀ c ∈ w, jsWs c = true) :
    processLine a (raw ++ w) = processLine a raw ∧
    ∃ ws, raw = trimEndList raw ++ ws ∧ ∀ c ∈ ws, jsWs c = true := by
  constructor
  · have htrim : trimEndList (raw ++ w) = trimEndList raw := by
      unfold trimEndList
      rw [List.reverse_append, List.dropWhile_append]
      have : w.reverse.dropWhile jsWs = [] :=
        List.dropWhile_eq_nil_iff.2 (fun x hx => hw x (by simpa using hx))
      simp [this]
    unfold processLine
    rw [htrim]
  · refine ⟨(raw.reverse.takeWhile jsWs).reverse, ?_, ?_⟩
    · show raw = trimEndList raw ++ _
      unfold trimEndList
      rw [← List.reverse_append, List.takeWhile_append_dropWhile,
        List.reverse_reverse]
    · intro c hc
      exact List.mem_takeWhile_imp (by simpa using hc)

theorem lineTrimming_witness :
    processLine initAcc ([100, 97, 116, 97, 58, 120].map Char.ofNat ++ [' ', '\t']) =
      processLine initAcc ([100, 97, 116, 97, 58, 120].map Char.ofNat) := by
  exact (lineTrimming initAcc _ [' ', '\t'] (by decide)).1

/-! ## The request timer (C9)

`chatStream` arms a single wall-clock timer before the request —
`setTimeout(() => controller.abort(), this.timeout)` — and clears it in the
`finally` block; the read loop performs no timer operation whatever, so the
number of chunks received never re-arms or extends the deadline.  This
contradicts the changelog ("Streaming timeout now resets on each chunk"). -/

/-- A timer operation performed by `chatStream`. -/
inductive TimerAction where
  | setT (delayMs : Nat)
  | clearT
deriving DecidableEq, Repr

/-- The timer-operation trace of one `chatStream` call that receives
`chunksReceived` chunks: one `setTimeout` with the configured timeout before
the fetch, no operation per received chunk, one `clearTimeout` on exit. -/
def chatStreamTimerOps (timeoutMs : Nat) (chunksReceived : Nat) :
    List TimerAction :=
  [.setT timeoutMs] ++ List.replicate (chunksReceived * 0) (.setT timeoutMs) ++
  [.clearT]

/-- C9 (code behaviour at the failing input): however many chunks arrive, the
original timer is armed exactly once and never reset — the trace for `n`
received chunks equals the trace for zero received chunks, so a stream still
actively receiving chunks after `timeoutMs` of wall-clock time is aborted by
the original timer. -/
theorem chatStreamTimer_no_reset (t n : Nat) :
    chatStreamTimerOps t n = [.setT t, .clearT] ∧
    chatStreamTimerOps t n = chatStreamTimerOps t 0 := by
  simp [chatStreamTimerOps]

/-! ## The `id` fallback (C10) -/

/-- C10: implicit `id` fallback in `toSearchResult`.  When the `id` field is
nullish (absent, `null` or `undefined`) but `chunk_id` is not, the coerced
`id` is the `String(...)` coercion of `chunk_id`; when both are nullish the
`id` defaults to the empty string. -/
theorem idFallbackChunkId (raw : List (String × JSValue))
    (hid : isNullish (getField raw "id") = true) :
    (isNullish (getField raw "chunk_id") = false →
      (toSearchResult raw).id = jsToString (getField raw "chunk_id")) ∧
    (isNullish (getField raw "chunk_id") = true →
      (toSearchResult raw).id = "") := by
  constructor <;> intro h <;>
    simp [toSearchResult, nullishCoalesce, hid, h, jsToString]

theorem idFallbackChunkId_witness :
    (toSearchResult [("chunk_id", JSValue.num (.finite 7 0))]).id =
      jsToString (getField [("chunk_id", JSValue.num (.finite 7 0))] "chunk_id") ∧
    (toSearchResult [("id", JSValue.null)]).id = "" := by
  refine ⟨(idFallbackChunkId [("chunk_id", JSValue.num (.finite 7 0))]
    (by rfl)).1 (by rfl), (idFallbackChunkId [("id", JSValue.null)]
    (by rfl)).2 (by rfl)⟩

/-! ## Trailing-frame flush (C8) -/

theorem noNl_evLine (n : String) (h : eventNameOk n) : '\n' ∉ evMark ++ n.data := by
  intro hm
  rcases List.mem_append.1 hm with hm | hm
  · revert hm; decide
  · have := h.2 _ hm
    simp [jsWs] at this

theorem noNl_dataLine (d : String) (h : dataLineOk d) : '\n' ∉ dataMark ++ d.data := by
  intro hm
  rcases List.mem_append.1 hm with hm | hm
  · revert hm; decide
  · exact h.1 hm

theorem framesLines_noNl (fs : List FrameSpec) (hw : ∀ f ∈ fs, wellFormed f) :
    ∀ l ∈ framesLines fs, '\n' ∉ l := by
  intro l hl
  simp only [framesLines, List.mem_flatten] at hl
  obtain ⟨ll, hll, hmem⟩ := hl
  obtain ⟨g, hg, rfl⟩ := List.mem_map.1 hll
  exact frameLines_noNl g (hw g hg) l hmem

/-- The lines of an *unterminated* frame opening: the optional `event:` line
and the `data:` lines seen so far (no blank line). -/
def openLines (en : Option String) (ds0 : List String) : List (List Char) :=
  (match en with
   | some n => [evMark ++ n.data]
   | none => []) ++ ds0.map (fun d => dataMark ++ d.data)

/-- Processing an unterminated frame opening sets the event name and
accumulates the payload without dispatching anything. -/
theorem processFrameOpen (en : Option String) (ds0 : List String)
    (hev : eventNameOkOpt en) (hds : ∀ d ∈ ds0, dataLineOk d) :
    processLines initAcc (openLines en ds0) =
      (⟨en.getD "message", ds0, false⟩, [], []) := by
  cases en with
  | none =>
    have h := processLines_data initAcc ds0 rfl hds
    simpa [openLines] using h
  | some n =>
    simp only [eventNameOkOpt] at hev
    simp only [openLines, List.singleton_append, processLines]
    rw [show (initAcc : FrameAcc) = ⟨"message", [], false⟩ from rfl,
      processLine_event _ _ rfl hev]
    simp only [List.append_eq, List.nil_append]
    rw [processLines_data ⟨n, [], false⟩ ds0 rfl hds]
    simp

/-- The `done`-branch computation for a buffer holding an unterminated
`data:` line: the tail line is appended to the pending data lines and the
pending frame is interpreted. -/
theorem finishTail_data (dec : DecoderState) (ev : String) (ds0 : List String)
    (dl : String) (hdl : dataLineOk dl) :
    finishTail ⟨dec, dataMark ++ dl.data, ⟨ev, ds0, false⟩⟩ =
      ([⟨ev, ds0 ++ [dl]⟩], (parseEvent ev (ds0 ++ [dl])).chunk.toList) := by
  obtain ⟨hnl, hte, hts⟩ := hdl
  have htrim : trimEndList (dataMark ++ dl.data) = dataMark ++ dl.data := by
    cases hdd : dl.data with
    | nil => simp only [hdd, List.append_nil]; decide
    | cons c cs =>
      rw [← hdd]
      exact trimEndList_append_stable _ _ (by rw [hte]) (by simp [hdd])
  have hdrop : (dataMark ++ dl.data).drop 5 = dl.data := by
    simp [dataMark]
  have hpre : dataMark.isPrefixOf (dataMark ++ dl.data) = true :=
    List.isPrefixOf_iff_prefix.2 (List.prefix_append _ _)
  have hnev : evMark.isPrefixOf (dataMark ++ dl.data) = false := by
    simp [evMark, dataMark, List.isPrefixOf]
  unfold finishTail
  simp only [htrim, hnev, Bool.false_eq_true, if_false, hpre, if_pos, hdrop, hts]
  simp

/-- The last data line of a frame. -/
def lastData (f : FrameSpec) : String := (f.dataLines.getLast?).getD ""

/-- The wire encoding of a frame *without* its final newline and blank-line
terminator: the optional `event:` line, all but the last `data:` line, and
the last `data:` line left unterminated. -/
def frameTextUnterminated (f : FrameSpec) : List Char :=
  linesToText (openLines f.eventName f.dataLines.dropLast) ++
  (dataMark ++ (lastData f).data)

/-- C8: trailing-frame flush at end-of-stream.  When the byte stream decodes
to well-formed frames `fs` followed by a final well-formed frame `f` whose
encoding is *not* terminated (no final newline, no blank line), the remaining
buffered text is treated as one closing line under the `event:`/`data:`
rules, combined with the data lines already accumulated, and interpreted —
so `chatStream` still reconstructs `f` and yields its chunk (if any) before
completing. -/
theorem trailingFrameFlush (fs : List FrameSpec) (f : FrameSpec)
    (bytes : List Nat) (d : DecoderState)
    (hw : ∀ g ∈ fs, wellFormed g) (hwf : wellFormed f)
    (hdec : decodeChunk initDecoder bytes =
      (d, framesText fs ++ frameTextUnterminated f)) :
    chatStreamFrames [bytes] = (fs ++ [f]).map toFrame ∧
    chatStreamChunks [bytes] = chunksOfFrames ((fs ++ [f]).map toFrame) := by
  obtain ⟨hev, hne, hds, hdone⟩ := hwf
  obtain ⟨ds0, dl, hsplit⟩ : ∃ ds0 dl, f.dataLines = ds0 ++ [dl] := by
    rcases List.eq_nil_or_concat f.dataLines with h | ⟨ds0, dl, h⟩
    · exact absurd h hne
    · exact ⟨ds0, dl, by simpa [List.concat_eq_append] using h⟩
  have hdl : dataLineOk dl := hds dl (by simp [hsplit])
  have hds0 : ∀ x ∈ ds0, dataLineOk x := fun x hx => hds x (by simp [hsplit, hx])
  have hlast : lastData f = dl := by simp [lastData, hsplit]
  have hdropl : f.dataLines.dropLast = ds0 := by simp [hsplit]
  have hsp : splitBuf (framesText fs ++ frameTextUnterminated f) =
      (framesLines fs ++ openLines f.eventName ds0, dataMark ++ dl.data) := by
    have heq : framesText fs ++ frameTextUnterminated f =
        linesToText (framesLines fs ++ openLines f.eventName ds0) ++
        (dataMark ++ dl.data) := by
      simp [framesText, frameTextUnterminated, linesToText, hlast, hdropl]
    rw [heq]
    apply splitBuf_lines
    · intro l hl
      rcases List.mem_append.1 hl with h | h
      · exact framesLines_noNl fs hw l h
      · simp only [openLines] at h
        rcases List.mem_append.1 h with h2 | h2
        · cases hfe : f.eventName with
          | none => simp [hfe] at h2
          | some n =>
            simp only [hfe, List.mem_singleton] at h2
            subst h2
            simp only [hfe, eventNameOkOpt] at hev
            exact noNl_evLine n hev
        · obtain ⟨x, hx, rfl⟩ := List.mem_map.1 h2
          exact noNl_dataLine x (hds0 x hx)
    · exact noNl_dataLine dl hdl
  have hproc : processLines initAcc (framesLines fs ++ openLines f.eventName ds0) =
      (⟨f.eventName.getD "message", ds0, false⟩, fs.map toFrame,
       chunksOfFrames (fs.map toFrame)) := by
    rw [processLines_append]
    simp only [processFrames fs hw, processFrameOpen f.eventName ds0 hev hds0]
    simp
  have hpump : pump initStream bytes =
      (⟨d, dataMark ++ dl.data, ⟨f.eventName.getD "message", ds0, false⟩⟩,
       fs.map toFrame, chunksOfFrames (fs.map toFrame)) := by
    show (let dd := decodeChunk initStream.dec bytes
      feedText ⟨dd.1, initStream.buffer, initStream.acc⟩ dd.2) = _
    rw [show initStream.dec = initDecoder from rfl, hdec]
    show feedText ⟨d, [], initAcc⟩ _ = _
    unfold feedText
    simp only [List.nil_append, hsp]
    rw [hproc]
  have hrun : runChunks initStream [bytes] = pump initStream bytes := by
    rw [runChunks_eq_pump_join initStream [bytes] (by simp [initStream])]
    simp
  have htail := finishTail_data d (f.eventName.getD "message") ds0 dl hdl
  constructor
  · simp only [chatStreamFrames, hrun, hpump]
    simp [htail, toFrame, hsplit]
  · simp only [chatStreamChunks, hrun, hpump]
    simp [htail, chunksOfFrames, toFrame, hsplit, chunkOf]

/-- The C8 witness frame: a single unterminated content-delta frame. -/
def c8Frame : FrameSpec :=
  ⟨none, ["\x7b\"choices\":[\x7b\"delta\":\x7b\"content\":\"Hi\"\x7d\x7d]\x7d"]⟩

/-- The C8 witness bytes: `data:` followed by the payload, with no trailing
newline or blank line. -/
def c8Bytes : List Nat :=
  ("data:\x7b\"choices\":[\x7b\"delta\":\x7b\"content\":\"Hi\"\x7d\x7d]\x7d").data.map Char.toNat

set_option maxRecDepth 8000 in
theorem trailingFrameFlush_witness :
    chatStreamFrames [c8Bytes] = ([] ++ [c8Frame]).map toFrame ∧
    chatStreamChunks [c8Bytes] = chunksOfFrames (([] ++ [c8Frame]).map toFrame) :=
  trailingFrameFlush [] c8Frame c8Bytes ⟨0, 0, 0, 0x80, 0xbf, true⟩
    (by decide) (by decide) (by decide)

end Ragora
